import Mathlib

/-!
Shallow embedding of `controller.py` (class `NonlinearController`), the
cascaded PID flight controller of the JPGAERO repository, together with
proofs of the specification claims about it.

Numeric values are modelled over an arbitrary linear ordered field `K`
(instantiated at `ℚ` for concrete evaluations and at `ℝ` for the
trigonometric stages).  Python list indexing, which wraps negative
indices, is modelled by `pyGetD`.  The trigonometric functions are passed
as parameters `sinf cosf` so that every definition stays computable; the
theorems instantiate them with `Real.sin` and `Real.cos`.
-/

/-- 3-component vector (numpy 3-arrays in the source). -/
abbrev V3 (K : Type) := K × K × K

/-- Python list indexing `xs[i]` for an integer index: a negative index
`i` with `-len ≤ i` counts from the end (`xs[-1]` is the last element).
Out-of-range accesses (which raise `IndexError` in Python and never occur
on the executions analysed here) return the default `d`. -/
def pyGetD {α : Type} (xs : List α) (i : ℤ) (d : α) : α :=
  if i < 0 then xs.getD (xs.length - (-i).toNat) d else xs.getD i.toNat d

variable {K : Type} [LinearOrderedField K]

/-- The minimum of `|x - t|` over the elements `x` of a nonempty list
(`np.min(np.abs(np.array(time_trajectory) - current_time))`). -/
def minAbsDist (t : K) : List K → K
  | [] => 0
  | x :: ys =>
    match ys with
    | [] => |x - t|
    | _ :: _ => min |x - t| (minAbsDist t ys)

/-- Embedding of `np.argmin(np.abs(np.array(time_trajectory) - current_time))`: the
index of the FIRST occurrence of the minimal distance `|x - t|`
(numpy's `argmin` returns the first occurrence of the minimum; in
particular ties resolve to the lower index). -/
def argminAbs (t : K) : List K → ℕ
  | [] => 0
  | x :: ys =>
    match ys with
    | [] => 0
    | _ :: _ => if |x - t| ≤ minAbsDist t ys then 0 else argminAbs t ys + 1

/-- The samples and times selected by the branch structure of
`NonlinearController.trajectory_control`: given the nearest index
`ind_min`, returns `(position0, position1, time0, time1, yaw_cmd)`.
Mirrors the source: if `current_time < time_trajectory[ind_min]` the
segment is `(ind_min - 1, ind_min)` (Python index `-1` wraps when
`ind_min = 0`); else if `ind_min >= len(position_trajectory) - 1` the
degenerate final segment holds position with fabricated times `0.0, 1.0`;
else the segment is `(ind_min, ind_min + 1)`. -/
def trajSegment (position_trajectory : List (V3 K)) (yaw_trajectory : List K)
    (time_trajectory : List K) (current_time : K) : V3 K × V3 K × K × K × K :=
  let ind_min : ℤ := (argminAbs current_time time_trajectory : ℤ)
  let time_ref := pyGetD time_trajectory ind_min 0
  if current_time < time_ref then
    (pyGetD position_trajectory (ind_min - 1) 0,
     pyGetD position_trajectory ind_min 0,
     pyGetD time_trajectory (ind_min - 1) 0,
     pyGetD time_trajectory ind_min 0,
     pyGetD yaw_trajectory (ind_min - 1) 0)
  else if ind_min ≥ (position_trajectory.length : ℤ) - 1 then
    (pyGetD position_trajectory ind_min 0,
     pyGetD position_trajectory ind_min 0,
     (0 : K), (1 : K),
     pyGetD yaw_trajectory ind_min 0)
  else
    (pyGetD position_trajectory ind_min 0,
     pyGetD position_trajectory (ind_min + 1) 0,
     pyGetD time_trajectory ind_min 0,
     pyGetD time_trajectory (ind_min + 1) 0,
     pyGetD yaw_trajectory ind_min 0)

/-- Embedding of `NonlinearController.trajectory_control`: the commanded
`(position, velocity, yaw)` at `current_time`.
`position_cmd = (position1 - position0) * (current_time - time0) / (time1 - time0) + position0`,
`velocity_cmd = (position1 - position0) / (time1 - time0)` (componentwise
numpy scalar division, written as scalar multiplication by `1/(time1 - time0)`). -/
def trajectory_control (position_trajectory : List (V3 K)) (yaw_trajectory : List K)
    (time_trajectory : List K) (current_time : K) : V3 K × V3 K × K :=
  let s := trajSegment position_trajectory yaw_trajectory time_trajectory current_time
  let position0 := s.1
  let position1 := s.2.1
  let time0 := s.2.2.1
  let time1 := s.2.2.2.1
  let yaw_cmd := s.2.2.2.2
  (((current_time - time0) / (time1 - time0)) • (position1 - position0) + position0,
   (1 / (time1 - time0)) • (position1 - position0),
   yaw_cmd)

/-- The gain fields set in `NonlinearController.__init__` (immutable for
the controller's lifetime; the numeric defaults of the source are
irrelevant to the claims, which quantify over all gains). -/
structure NonlinearController (K : Type) where
  z_k_p : K
  z_k_d : K
  x_k_p : K
  x_k_d : K
  y_k_p : K
  y_k_d : K
  k_p_roll : K
  k_p_pitch : K
  k_p_yaw : K
  k_p_p : K
  k_p_q : K
  k_p_r : K

/-- Gravity constant `self.g = 9.81`, set in `__init__` (over `ℝ` this is the literal
`9.81`). -/
def selfG : K := 981 / 100

/-- Embedding of `NonlinearController.lateral_position_control`: per-axis PD law on
(north, east). -/
def lateral_position_control (c : NonlinearController K)
    (local_position_cmd local_velocity_cmd local_position local_velocity
      acceleration_ff : K × K) : K × K :=
  let X_dot_dot_command :=
    c.x_k_p * (local_position_cmd.1 - local_position.1)
      + c.x_k_d * (local_velocity_cmd.1 - local_velocity.1) + acceleration_ff.1
  let b_x_c := X_dot_dot_command
  let Y_dot_dot_command :=
    c.y_k_p * (local_position_cmd.2 - local_position.2)
      + c.y_k_d * (local_velocity_cmd.2 - local_velocity.2) + acceleration_ff.2
  let b_y_c := Y_dot_dot_command
  (b_x_c, b_y_c)

/-- The matrix `Rx_phi` built in the source from `attitude[0]` (roll). -/
def Rx_phi (sinf cosf : K → K) (phi : K) : Matrix (Fin 3) (Fin 3) K :=
  !![1, 0, 0;
     0, cosf phi, -(sinf phi);
     0, sinf phi, cosf phi]

/-- The matrix `Ry_theta` built in the source from `attitude[1]` (pitch). -/
def Ry_theta (sinf cosf : K → K) (theta : K) : Matrix (Fin 3) (Fin 3) K :=
  !![cosf theta, 0, sinf theta;
     0, 1, 0;
     -(sinf theta), 0, cosf theta]

/-- The matrix `Rz_psi` built in the source from `attitude[2]` (yaw). -/
def Rz_psi (sinf cosf : K → K) (psi : K) : Matrix (Fin 3) (Fin 3) K :=
  !![cosf psi, -(sinf psi), 0;
     sinf psi, cosf psi, 0;
     0, 0, 1]

/-- The rotation matrix constructed inside `altitude_control`:
`A = np.dot(Rz_psi, Ry_theta); rotation_matrix = np.dot(A, Rx_phi)`. -/
def rotation_matrix_alt (sinf cosf : K → K) (attitude : V3 K) :
    Matrix (Fin 3) (Fin 3) K :=
  let A := Rz_psi sinf cosf attitude.2.2 * Ry_theta sinf cosf attitude.2.1
  A * Rx_phi sinf cosf attitude.1

/-- The rotation matrix constructed inside `roll_pitch_controller` (the
source duplicates the construction):
`A = np.dot(Rz_psi, Ry_theta); rotation_mat = np.dot(A, Rx_phi)`. -/
def rotation_mat_rp (sinf cosf : K → K) (attitude : V3 K) :
    Matrix (Fin 3) (Fin 3) K :=
  let A := Rz_psi sinf cosf attitude.2.2 * Ry_theta sinf cosf attitude.2.1
  A * Rx_phi sinf cosf attitude.1

/-- Embedding of `NonlinearController.altitude_control`:
`u1_bar = z_k_p*(altitude_cmd-altitude) + z_k_d*(vertical_velocity_cmd-vertical_velocity) + acceleration_ff`;
returns `c = (u1_bar - self.g) / rotation_matrix[2][2]`. -/
def altitude_control (c : NonlinearController K) (sinf cosf : K → K)
    (altitude_cmd vertical_velocity_cmd altitude vertical_velocity : K)
    (attitude : V3 K) (acceleration_ff : K) : K :=
  let rotation_matrix := rotation_matrix_alt sinf cosf attitude
  let u1_bar := c.z_k_p * (altitude_cmd - altitude)
    + c.z_k_d * (vertical_velocity_cmd - vertical_velocity) + acceleration_ff
  (u1_bar - selfG) / rotation_matrix 2 2

/-- Embedding of `NonlinearController.roll_pitch_controller`: tilt-error terms
`b_dot_x_c`, `b_dot_y_c`, then
`B = (1/rotation_mat[2][2]) * [[R[1][0], -R[0][0]], [R[1][1], -R[0][1]]]`
applied to `(b_dot_x_c, b_dot_y_c)` by `np.matmul`. -/
def roll_pitch_controller (c : NonlinearController K) (sinf cosf : K → K)
    (acceleration_cmd : K × K) (attitude : V3 K) (thrust_cmd : K) : K × K :=
  let rotation_mat := rotation_mat_rp sinf cosf attitude
  let b_dot_x_c := c.k_p_roll * (acceleration_cmd.1 / thrust_cmd - rotation_mat 0 2)
  let b_dot_y_c := c.k_p_pitch * (acceleration_cmd.2 / thrust_cmd - rotation_mat 1 2)
  let A : Matrix (Fin 2) (Fin 2) K :=
    !![rotation_mat 1 0, -(rotation_mat 0 0);
       rotation_mat 1 1, -(rotation_mat 0 1)]
  let B := (1 / rotation_mat 2 2) • A
  let C := B.mulVec ![b_dot_x_c, b_dot_y_c]
  let p_c := C 0
  let q_c := C 1
  (p_c, q_c)

/-- Embedding of `NonlinearController.body_rate_control`: proportional law per body
axis. -/
def body_rate_control (c : NonlinearController K) (body_rate_cmd body_rate : V3 K) :
    V3 K :=
  let p_error := body_rate_cmd.1 - body_rate.1
  let u_bar_p := c.k_p_p * p_error
  let q_error := body_rate_cmd.2.1 - body_rate.2.1
  let u_bar_q := c.k_p_q * q_error
  let r_error := body_rate_cmd.2.2 - body_rate.2.2
  let u_bar_r := c.k_p_r * r_error
  (u_bar_p, u_bar_q, u_bar_r)

/-- Embedding of `NonlinearController.yaw_control`: the source returns the literal
`0.0` regardless of its arguments. -/
def yaw_control (c : NonlinearController K) (yaw_cmd yaw : K) : K := 0

/-- Validity of an integer index for a Python list of length `len`
without wraparound: `0 ≤ i < len`. -/
def pyIndexInRange (len : ℕ) (i : ℤ) : Prop := 0 ≤ i ∧ i < (len : ℤ)

theorem pyGetD_natCast {α : Type} (xs : List α) (n : ℕ) (d : α) :
    pyGetD xs (n : ℤ) d = xs.getD n d := by
  simp [pyGetD]

theorem pyGetD_natCast_sub_one {α : Type} (xs : List α) (n : ℕ) (hn : 1 ≤ n) (d : α) :
    pyGetD xs ((n : ℤ) - 1) d = xs.getD (n - 1) d := by
  have h : ((n : ℤ) - 1) = ((n - 1 : ℕ) : ℤ) := by omega
  rw [h, pyGetD_natCast]

theorem pyGetD_natCast_add_one {α : Type} (xs : List α) (n : ℕ) (d : α) :
    pyGetD xs ((n : ℤ) + 1) d = xs.getD (n + 1) d := by
  have h : ((n : ℤ) + 1) = ((n + 1 : ℕ) : ℤ) := by omega
  rw [h, pyGetD_natCast]

/-- Python index `-1` reads the last element. -/
theorem pyGetD_neg_one {α : Type} (xs : List α) (d : α) :
    pyGetD xs (-1) d = xs.getD (xs.length - 1) d := by
  simp [pyGetD]

theorem minAbsDist_singleton (t x : K) : minAbsDist t [x] = |x - t| := rfl

theorem minAbsDist_cons₂ (t x y : K) (ys : List K) :
    minAbsDist t (x :: y :: ys) = min |x - t| (minAbsDist t (y :: ys)) := rfl

theorem argminAbs_singleton (t x : K) : argminAbs t [x] = 0 := rfl

theorem argminAbs_cons₂ (t x y : K) (ys : List K) :
    argminAbs t (x :: y :: ys) =
      if |x - t| ≤ minAbsDist t (y :: ys) then 0 else argminAbs t (y :: ys) + 1 := rfl

theorem minAbsDist_le (t : K) :
    ∀ (l : List K) (j : ℕ), j < l.length → minAbsDist t l ≤ |l.getD j 0 - t| := by
  intro l
  induction l with
  | nil => intro j hj; simp at hj
  | cons x ys ih =>
    intro j hj
    cases ys with
    | nil =>
      have hj0 : j = 0 := by simpa using Nat.lt_one_iff.mp (by simpa using hj)
      subst hj0
      simp [minAbsDist]
    | cons y ys2 =>
      cases j with
      | zero => simpa [minAbsDist] using min_le_left _ _
      | succ n =>
        have hn : n < (y :: ys2).length := Nat.lt_of_succ_lt_succ hj
        have h1 := ih n hn
        have h2 : minAbsDist t (x :: y :: ys2) ≤ minAbsDist t (y :: ys2) := by
          simpa [minAbsDist] using min_le_right _ _
        simpa [List.getD_cons_succ] using le_trans h2 h1

theorem argminAbs_lt_length (t : K) :
    ∀ (l : List K), l ≠ [] → argminAbs t l < l.length := by
  intro l
  induction l with
  | nil => intro h; exact absurd rfl h
  | cons x ys ih =>
    intro _
    cases ys with
    | nil => simp [argminAbs]
    | cons y ys2 =>
      by_cases h : |x - t| ≤ minAbsDist t (y :: ys2)
      · simp [argminAbs_cons₂, h]
      · have hlt := ih (List.cons_ne_nil y ys2)
        rw [argminAbs_cons₂, if_neg h]
        simp only [List.length_cons] at hlt ⊢
        omega

/-- The distance at the index returned by `argminAbs` is the minimum
distance. -/
theorem abs_argminAbs_sub (t : K) :
    ∀ (l : List K), l ≠ [] → |l.getD (argminAbs t l) 0 - t| = minAbsDist t l := by
  intro l
  induction l with
  | nil => intro h; exact absurd rfl h
  | cons x ys ih =>
    intro _
    cases ys with
    | nil => simp [argminAbs, minAbsDist]
    | cons y ys2 =>
      by_cases h : |x - t| ≤ minAbsDist t (y :: ys2)
      · rw [argminAbs_cons₂, if_pos h, minAbsDist_cons₂, List.getD_cons_zero]
        exact (min_eq_left h).symm
      · have hrec := ih (List.cons_ne_nil y ys2)
        have hmin : min |x - t| (minAbsDist t (y :: ys2)) = minAbsDist t (y :: ys2) :=
          min_eq_right (le_of_lt (lt_of_not_le h))
        rw [argminAbs_cons₂, if_neg h, minAbsDist_cons₂, List.getD_cons_succ, hrec]
        exact hmin.symm

/-- The index `argminAbs` attains the minimal distance: every other index is at
least as far from `t`. -/
theorem argminAbs_attains (t : K) (l : List K) (hne : l ≠ []) (j : ℕ)
    (hj : j < l.length) :
    |l.getD (argminAbs t l) 0 - t| ≤ |l.getD j 0 - t| := by
  rw [abs_argminAbs_sub t l hne]
  exact minAbsDist_le t l j hj

/-- In a strictly sorted list, `getD` is strictly monotone on valid
indices. -/
theorem sorted_getD_lt (l : List K) (hs : List.Sorted (· < ·) l) (i j : ℕ)
    (hij : i < j) (hj : j < l.length) : l.getD i 0 < l.getD j 0 := by
  have hi : i < l.length := lt_trans hij hj
  have h := hs.rel_get_of_lt (show (⟨i, hi⟩ : Fin l.length) < ⟨j, hj⟩ from hij)
  rw [List.getD_eq_getElem l 0 hi, List.getD_eq_getElem l 0 hj]
  simpa [List.get_eq_getElem] using h

/-- If the query time is strictly before the first sample's time of a
strictly increasing list, the nearest index is `0`. -/
theorem argminAbs_of_lt_head (t : K) (l : List K) (hs : List.Sorted (· < ·) l)
    (ht : t < l.getD 0 0) : ∀ (x : K) (ys : List K), l = x :: ys → argminAbs t l = 0 := by
  intro x ys hl
  subst hl
  cases ys with
  | nil => rfl
  | cons y ys2 =>
    have hm : argminAbs t (y :: ys2) < (y :: ys2).length :=
      argminAbs_lt_length t (y :: ys2) (List.cons_ne_nil y ys2)
    have hmem : (y :: ys2).getD (argminAbs t (y :: ys2)) 0 ∈ y :: ys2 := by
      rw [List.getD_eq_getElem _ 0 hm]
      exact List.getElem_mem hm
    have hx : x < (y :: ys2).getD (argminAbs t (y :: ys2)) 0 :=
      (List.sorted_cons.mp hs).1 _ hmem
    have htx : t < x := by simpa using ht
    have hxbound : |x - t| ≤ minAbsDist t (y :: ys2) := by
      rw [← abs_argminAbs_sub t (y :: ys2) (List.cons_ne_nil y ys2)]
      rw [abs_of_nonneg (by linarith), abs_of_nonneg (by linarith)]
      linarith
    rw [argminAbs_cons₂, if_pos hxbound]

/-- If the query time is at or after the last sample's time of a strictly
increasing list, the nearest index is the last index. -/
theorem argminAbs_of_last_le (t : K) :
    ∀ (l : List K), List.Sorted (· < ·) l → l ≠ [] →
      l.getD (l.length - 1) 0 ≤ t → argminAbs t l = l.length - 1 := by
  intro l
  induction l with
  | nil => intro _ h; exact absurd rfl h
  | cons x ys ih =>
    intro hs _ hlast
    cases ys with
    | nil => rfl
    | cons y ys2 =>
      have hlast' : (y :: ys2).getD ((y :: ys2).length - 1) 0 ≤ t := by
        have hidx : (x :: y :: ys2).length - 1 = ((y :: ys2).length - 1) + 1 := by
          simp
        rw [hidx, List.getD_cons_succ] at hlast
        exact hlast
      have hs' : List.Sorted (· < ·) (y :: ys2) := (List.sorted_cons.mp hs).2
      have hlt : (y :: ys2).length - 1 < (y :: ys2).length := by simp
      have hmem : (y :: ys2).getD ((y :: ys2).length - 1) 0 ∈ y :: ys2 := by
        rw [List.getD_eq_getElem _ 0 hlt]
        exact List.getElem_mem hlt
      have hx : x < (y :: ys2).getD ((y :: ys2).length - 1) 0 :=
        (List.sorted_cons.mp hs).1 _ hmem
      have hxt : x < t := lt_of_lt_of_le hx hlast'
      have hM : minAbsDist t (y :: ys2) ≤ |(y :: ys2).getD ((y :: ys2).length - 1) 0 - t| :=
        minAbsDist_le t (y :: ys2) _ hlt
      have habs : |(y :: ys2).getD ((y :: ys2).length - 1) 0 - t|
          = t - (y :: ys2).getD ((y :: ys2).length - 1) 0 := by
        rw [abs_of_nonpos (by linarith)]; ring
      have hnot : ¬ |x - t| ≤ minAbsDist t (y :: ys2) := by
        rw [abs_of_nonpos (by linarith)]
        rw [habs] at hM
        intro hcon
        linarith
      rw [argminAbs_cons₂, if_neg hnot, ih hs' (List.cons_ne_nil y ys2) hlast']
      simp

/-- If `t` lies in the interior segment `[l_i, l_{i+1})` of a strictly
increasing list, the nearest index is `i` or `i + 1`. -/
theorem argminAbs_of_interior (t : K) (l : List K) (i : ℕ)
    (hs : List.Sorted (· < ·) l) (hi1 : i + 1 < l.length)
    (hle : l.getD i 0 ≤ t) (hlt : t < l.getD (i + 1) 0) :
    argminAbs t l = i ∨ argminAbs t l = i + 1 := by
  have hne : l ≠ [] := List.ne_nil_of_length_pos (by omega)
  have hm : argminAbs t l < l.length := argminAbs_lt_length t l hne
  rcases lt_trichotomy (argminAbs t l) i with hmi | hmi | hmi
  · exfalso
    have h1 : l.getD (argminAbs t l) 0 < l.getD i 0 :=
      sorted_getD_lt l hs _ i hmi (by omega)
    have h2 := argminAbs_attains t l hne i (by omega)
    rw [abs_of_nonpos (by linarith), abs_of_nonpos (by linarith)] at h2
    linarith
  · exact Or.inl hmi
  · rcases Nat.eq_or_lt_of_le (Nat.succ_le_of_lt hmi) with hmi1 | hmi1
    · exact Or.inr hmi1.symm
    · exfalso
      have h1 : l.getD (i + 1) 0 < l.getD (argminAbs t l) 0 :=
        sorted_getD_lt l hs (i + 1) _ hmi1 hm
      have h2 := argminAbs_attains t l hne (i + 1) hi1
      rw [abs_of_nonneg (by linarith), abs_of_nonneg (by linarith)] at h2
      linarith

/-- Segment selection for an interior query: for strictly increasing
times with `times_i ≤ t < times_{i+1}` and `i` not the last index, the
code selects samples `i` and `i + 1` (whichever of the two is nearest to
`t`). -/
theorem trajSegment_interior (pos : List (V3 K)) (yawT times : List K) (t : K) (i : ℕ)
    (hs : List.Sorted (· < ·) times) (hi1 : i + 1 < times.length)
    (hlp : pos.length = times.length)
    (hle : times.getD i 0 ≤ t) (hlt : t < times.getD (i + 1) 0) :
    trajSegment pos yawT times t =
      (pos.getD i 0, pos.getD (i + 1) 0, times.getD i 0, times.getD (i + 1) 0,
       yawT.getD i 0) := by
  rcases argminAbs_of_interior t times i hs hi1 hle hlt with hm | hm
  · simp only [trajSegment, hm, pyGetD_natCast, pyGetD_natCast_add_one]
    rw [if_neg (not_lt.mpr hle)]
    rw [if_neg (show ¬ ((i : ℤ) ≥ (pos.length : ℤ) - 1) by
      rw [hlp]; omega)]
  · simp only [trajSegment, hm, pyGetD_natCast]
    rw [if_pos hlt]
    rw [pyGetD_natCast_sub_one pos (i + 1) (Nat.le_add_left 1 i),
        pyGetD_natCast_sub_one times (i + 1) (Nat.le_add_left 1 i),
        pyGetD_natCast_sub_one yawT (i + 1) (Nat.le_add_left 1 i)]
    simp

/-- Segment selection at or after the final sample's time (strictly
increasing times): the degenerate final branch holds the last position
with the fabricated time span `[0, 1]`. -/
theorem trajSegment_final (pos : List (V3 K)) (yawT times : List K) (t : K)
    (hs : List.Sorted (· < ·) times) (hne : times ≠ [])
    (hlp : pos.length = times.length)
    (hT : times.getD (times.length - 1) 0 ≤ t) :
    trajSegment pos yawT times t =
      (pos.getD (times.length - 1) 0, pos.getD (times.length - 1) 0, (0 : K), (1 : K),
       yawT.getD (times.length - 1) 0) := by
  have hm : argminAbs t times = times.length - 1 := argminAbs_of_last_le t times hs hne hT
  have hlen : 1 ≤ times.length := by
    cases times with
    | nil => exact absurd rfl hne
    | cons a l => simp
  simp only [trajSegment, hm, pyGetD_natCast]
  rw [if_neg (not_lt.mpr hT)]
  rw [if_pos (show ((times.length - 1 : ℕ) : ℤ) ≥ (pos.length : ℤ) - 1 by
    rw [hlp]; omega)]

/-- Segment selection for a query strictly before the first sample's
time (strictly increasing times): the code computes `ind_min = 0` and
reads sample 0's predecessor at Python index `-1`, which is out of range
and wraps to the LAST sample of the trajectory. -/
theorem trajSegment_before_first (pos : List (V3 K)) (yawT times : List K) (t : K)
    (hs : List.Sorted (· < ·) times) (x : K) (ys : List K) (hxy : times = x :: ys)
    (ht : t < times.getD 0 0) :
    trajSegment pos yawT times t =
      (pos.getD (pos.length - 1) 0, pos.getD 0 0,
       times.getD (times.length - 1) 0, times.getD 0 0,
       yawT.getD (yawT.length - 1) 0) := by
  have hm : argminAbs t times = 0 := argminAbs_of_lt_head t times hs ht x ys hxy
  simp only [trajSegment, hm, pyGetD_natCast]
  rw [if_pos (by simpa using ht)]
  norm_num [pyGetD_neg_one]

/-- Claim C1: for a trajectory with strictly increasing times and a query
time `t` in the interior segment `[times_i, times_{i+1})` with `i` not
the last index, `trajectory_control` returns
`position_cmd = position_i + (t - times_i)/(times_{i+1} - times_i) • (position_{i+1} - position_i)`
and `velocity_cmd = (position_{i+1} - position_i)/(times_{i+1} - times_i)`,
the velocity being the same constant for every `t` in the segment (the
formula does not depend on `t`). -/
theorem trajectory_control_interior_spec (pos : List (V3 ℝ)) (yawT times : List ℝ)
    (t : ℝ) (i : ℕ) (hs : List.Sorted (· < ·) times) (hi1 : i + 1 < times.length)
    (hlp : pos.length = times.length)
    (hle : times.getD i 0 ≤ t) (hlt : t < times.getD (i + 1) 0) :
    (trajectory_control pos yawT times t).1
        = pos.getD i 0 + ((t - times.getD i 0) / (times.getD (i + 1) 0 - times.getD i 0))
            • (pos.getD (i + 1) 0 - pos.getD i 0)
      ∧ (trajectory_control pos yawT times t).2.1
        = (1 / (times.getD (i + 1) 0 - times.getD i 0))
            • (pos.getD (i + 1) 0 - pos.getD i 0) := by
  have hseg := trajSegment_interior pos yawT times t i hs hi1 hlp hle hlt
  unfold trajectory_control
  rw [hseg]
  exact ⟨add_comm _ _, rfl⟩

/-- Witness for C1: the two-waypoint trajectory `t=0 ↦ (0,0,0)`,
`t=10 ↦ (10,0,0)` queried at `t=5` (the nearest-index tie at `t=5`
resolves to the lower index) yields position `(5,0,0)` and velocity
`(1,0,0)`. -/
theorem trajectory_control_interior_spec_witness :
    List.Sorted (· < ·) ([0, 10] : List ℝ)
    ∧ 0 + 1 < ([0, 10] : List ℝ).length
    ∧ [((0:ℝ), (0:ℝ), (0:ℝ)), (10, 0, 0)].length = ([0, 10] : List ℝ).length
    ∧ ([0, 10] : List ℝ).getD 0 0 ≤ (5 : ℝ)
    ∧ (5 : ℝ) < ([0, 10] : List ℝ).getD (0 + 1) 0
    ∧ (trajectory_control [((0:ℝ), 0, 0), (10, 0, 0)] [0, 0] [0, 10] 5).1 = (5, 0, 0)
    ∧ (trajectory_control [((0:ℝ), 0, 0), (10, 0, 0)] [0, 0] [0, 10] 5).2.1 = (1, 0, 0) := by
  have h1 : List.Sorted (· < ·) ([0, 10] : List ℝ) := by
    norm_num [List.sorted_cons]
  have h2 : 0 + 1 < ([0, 10] : List ℝ).length := by norm_num
  have h3 : [((0:ℝ), (0:ℝ), (0:ℝ)), (10, 0, 0)].length = ([0, 10] : List ℝ).length := by
    norm_num
  have h4 : ([0, 10] : List ℝ).getD 0 0 ≤ (5 : ℝ) := by norm_num
  have h5 : (5 : ℝ) < ([0, 10] : List ℝ).getD (0 + 1) 0 := by norm_num
  obtain ⟨hp, hv⟩ := trajectory_control_interior_spec
    [((0:ℝ), 0, 0), (10, 0, 0)] [0, 0] [0, 10] 5 0 h1 h2 h3 h4 h5
  refine ⟨h1, h2, h3, h4, h5, ?_, ?_⟩
  · rw [hp]
    norm_num [Prod.smul_mk, Prod.mk_add_mk, Prod.mk_sub_mk, smul_eq_mul]
  · rw [hv]
    norm_num [Prod.smul_mk, Prod.mk_sub_mk, smul_eq_mul]

/-- Counterexample to C2 as stated: the claim's hypothesis asks only for
"at least one sample"; on the spec's data model times may be merely
non-decreasing.  With times `[3, 5, 5]` (non-decreasing, final time `5`)
and query `t = 6 ≥ 5`, the nearest index is `1` (first occurrence of the
minimal distance), the guarded degenerate branch is NOT taken, and the
returned position is the interpolation on the zero-length segment
`(1, 2)` — not the final sample's position `(2,0,0)`. -/
theorem trajectory_control_after_final_counterexample :
    List.Sorted (· ≤ ·) ([3, 5, 5] : List ℝ)
    ∧ ([3, 5, 5] : List ℝ).getD (([3, 5, 5] : List ℝ).length - 1) 0 ≤ (6 : ℝ)
    ∧ (trajectory_control [((0:ℝ), 0, 0), (1, 0, 0), (2, 0, 0)] [0, 0, 1] [3, 5, 5] 6).1
        ≠ (2, 0, 0) := by
  refine ⟨by norm_num [List.sorted_cons], by norm_num, ?_⟩
  have hm : argminAbs (6 : ℝ) [3, 5, 5] = 1 := by
    norm_num [argminAbs_cons₂, argminAbs_singleton, minAbsDist_cons₂, minAbsDist_singleton,
      abs]
  have hseg : trajSegment [((0:ℝ), 0, 0), (1, 0, 0), (2, 0, 0)] [0, 0, 1] [3, 5, 5] 6
      = (((1:ℝ), (0:ℝ), (0:ℝ)), ((2:ℝ), (0:ℝ), (0:ℝ)), (5:ℝ), (5:ℝ), (0:ℝ)) := by
    norm_num [trajSegment, hm, pyGetD]
    simp
  unfold trajectory_control
  rw [hseg]
  norm_num [Prod.smul_mk, Prod.mk_add_mk, Prod.mk_sub_mk, smul_eq_mul, Prod.mk.injEq]

/-- Claim C2 (amended: the trajectory's times must be strictly
increasing, not merely non-decreasing): for every trajectory with
strictly increasing times and every query time at or after the final
sample's time, `trajectory_control` returns exactly the final sample's
position, the zero velocity vector, and the final sample's yaw (the
degenerate last segment is given the fabricated `[0, 1]` time span, so no
division by zero occurs). -/
theorem trajectory_control_after_final_spec (pos : List (V3 ℝ)) (yawT times : List ℝ)
    (t : ℝ) (hs : List.Sorted (· < ·) times) (hne : times ≠ [])
    (hlp : pos.length = times.length) (hly : yawT.length = times.length)
    (hT : times.getD (times.length - 1) 0 ≤ t) :
    trajectory_control pos yawT times t
      = (pos.getD (pos.length - 1) 0, (0 : V3 ℝ), yawT.getD (yawT.length - 1) 0) := by
  have hseg := trajSegment_final pos yawT times t hs hne hlp hT
  unfold trajectory_control
  rw [hseg, hlp, hly]
  simp

/-- Witness for the amended C2: waypoints `t=0 ↦ (0,0,0)` (yaw 0) and
`t=10 ↦ (10,0,0)` (yaw 7), queried at `t=12`, return `((10,0,0), 0, 7)`. -/
theorem trajectory_control_after_final_spec_witness :
    List.Sorted (· < ·) ([0, 10] : List ℝ)
    ∧ ([0, 10] : List ℝ) ≠ []
    ∧ [((0:ℝ), (0:ℝ), (0:ℝ)), (10, 0, 0)].length = ([0, 10] : List ℝ).length
    ∧ ([0, 7] : List ℝ).length = ([0, 10] : List ℝ).length
    ∧ ([0, 10] : List ℝ).getD (([0, 10] : List ℝ).length - 1) 0 ≤ (12 : ℝ)
    ∧ trajectory_control [((0:ℝ), 0, 0), (10, 0, 0)] [0, 7] [0, 10] 12
        = ((10, 0, 0), 0, 7) := by
  have h1 : List.Sorted (· < ·) ([0, 10] : List ℝ) := by norm_num [List.sorted_cons]
  have h2 : ([0, 10] : List ℝ) ≠ [] := List.cons_ne_nil _ _
  have h3 : [((0:ℝ), (0:ℝ), (0:ℝ)), (10, 0, 0)].length = ([0, 10] : List ℝ).length := by
    norm_num
  have h4 : ([0, 7] : List ℝ).length = ([0, 10] : List ℝ).length := by norm_num
  have h5 : ([0, 10] : List ℝ).getD (([0, 10] : List ℝ).length - 1) 0 ≤ (12 : ℝ) := by
    norm_num
  have h := trajectory_control_after_final_spec
    [((0:ℝ), 0, 0), (10, 0, 0)] [0, 7] [0, 10] 12 h1 h2 h3 h4 h5
  refine ⟨h1, h2, h3, h4, h5, ?_⟩
  rw [h]
  norm_num

/-- Claim C3: when the query time is strictly before the first sample's
time of a strictly increasing trajectory, the nearest index found is `0`
and the code indexes one element before it: the Python index
`ind_min - 1 = -1` is out of the valid range `[0, len)`, and the sample
actually read is the trajectory's LAST sample (Python wraparound) — an
out-of-range access, not a clamp to the first sample. -/
theorem trajectory_control_before_first_spec (pos : List (V3 ℝ)) (yawT times : List ℝ)
    (t : ℝ) (hs : List.Sorted (· < ·) times) (x : ℝ) (ys : List ℝ)
    (hxy : times = x :: ys) (ht : t < times.getD 0 0) :
    argminAbs t times = 0
    ∧ ¬ pyIndexInRange pos.length ((argminAbs t times : ℤ) - 1)
    ∧ trajSegment pos yawT times t
        = (pos.getD (pos.length - 1) 0, pos.getD 0 0,
           times.getD (times.length - 1) 0, times.getD 0 0,
           yawT.getD (yawT.length - 1) 0) := by
  have hm : argminAbs t times = 0 := argminAbs_of_lt_head t times hs ht x ys hxy
  refine ⟨hm, ?_, trajSegment_before_first pos yawT times t hs x ys hxy ht⟩
  rw [hm]
  rintro ⟨h0, -⟩
  omega

/-- Witness for C3: waypoints at times `[2, 4]` queried at `t = 1`: the
nearest index is `0`, the Python index `-1` is out of range, and the
segment actually selected starts at the LAST sample `(8,0,0)` at time
`4`. -/
theorem trajectory_control_before_first_spec_witness :
    List.Sorted (· < ·) ([2, 4] : List ℝ)
    ∧ ([2, 4] : List ℝ) = 2 :: [4]
    ∧ (1 : ℝ) < ([2, 4] : List ℝ).getD 0 0
    ∧ argminAbs (1 : ℝ) [2, 4] = 0
    ∧ ¬ pyIndexInRange [((0:ℝ), (0:ℝ), (0:ℝ)), (8, 0, 0)].length
        ((argminAbs (1 : ℝ) [2, 4] : ℤ) - 1)
    ∧ trajSegment [((0:ℝ), 0, 0), (8, 0, 0)] [0, 9] [2, 4] 1
        = ((8, 0, 0), (0, 0, 0), 4, 2, 9) := by
  have h1 : List.Sorted (· < ·) ([2, 4] : List ℝ) := by norm_num [List.sorted_cons]
  have h2 : ([2, 4] : List ℝ) = 2 :: [4] := rfl
  have h3 : (1 : ℝ) < ([2, 4] : List ℝ).getD 0 0 := by norm_num
  obtain ⟨hm, hrange, hseg⟩ := trajectory_control_before_first_spec
    [((0:ℝ), 0, 0), (8, 0, 0)] [0, 9] [2, 4] 1 h1 2 [4] h2 h3
  refine ⟨h1, h2, h3, hm, hrange, ?_⟩
  rw [hseg]
  norm_num

/-- Claim C10: a trajectory with merely non-decreasing times (the spec's
stated precondition, which permits consecutive equal times) can make the
interpolation divisor `time1 - time0` equal to zero: with times `[0, 0]`
and query `t = 0` the selected segment is the interpolating branch
`(0, 1)` with `time0 = time1 = 0` — the fabricated `[0, 1]` span guards
only the final-sample branch, so totality requires strictly increasing
times. -/
theorem trajSegment_duplicate_time_div_zero :
    List.Sorted (· ≤ ·) ([0, 0] : List ℝ)
    ∧ trajSegment [((0:ℝ), 0, 0), (1, 0, 0)] [0, 0] [0, 0] 0
        = (((0:ℝ), (0:ℝ), (0:ℝ)), ((1:ℝ), (0:ℝ), (0:ℝ)), (0:ℝ), (0:ℝ), (0:ℝ))
    ∧ (trajSegment [((0:ℝ), 0, 0), (1, 0, 0)] [0, 0] [0, 0] 0).2.2.2.1
        - (trajSegment [((0:ℝ), 0, 0), (1, 0, 0)] [0, 0] [0, 0] 0).2.2.1 = 0 := by
  have hm : argminAbs (0 : ℝ) [0, 0] = 0 := by
    norm_num [argminAbs_cons₂, minAbsDist_singleton, abs]
  have hseg : trajSegment [((0:ℝ), 0, 0), (1, 0, 0)] [0, 0] [0, 0] 0
      = (((0:ℝ), (0:ℝ), (0:ℝ)), ((1:ℝ), (0:ℝ), (0:ℝ)), (0:ℝ), (0:ℝ), (0:ℝ)) := by
    norm_num [trajSegment, hm, pyGetD]
  refine ⟨by norm_num [List.sorted_cons], hseg, by rw [hseg]; norm_num⟩

/-- Shared computation: the `[2][2]` entry of the rotation matrix built in
`altitude_control` is `cos(roll) * cos(pitch)`. -/
theorem rotation_matrix_alt_apply_22 (sinf cosf : K → K) (attitude : V3 K) :
    rotation_matrix_alt sinf cosf attitude 2 2 = cosf attitude.1 * cosf attitude.2.1 := by
  simp [rotation_matrix_alt, Rz_psi, Ry_theta, Rx_phi, Matrix.mul_apply, Fin.sum_univ_three]
  ring

/-- Shared computation: `altitude_control` in closed form over `ℝ`. -/
theorem altitude_control_eq (c : NonlinearController ℝ)
    (altitude_cmd vertical_velocity_cmd altitude vertical_velocity acceleration_ff
      phi theta psi : ℝ) :
    altitude_control c Real.sin Real.cos altitude_cmd vertical_velocity_cmd altitude
        vertical_velocity (phi, theta, psi) acceleration_ff
      = (c.z_k_p * (altitude_cmd - altitude)
          + c.z_k_d * (vertical_velocity_cmd - vertical_velocity)
          + acceleration_ff - 9.81) / (Real.cos phi * Real.cos theta) := by
  simp only [altitude_control]
  rw [rotation_matrix_alt_apply_22]
  norm_num [selfG]

/-- Claim C4: `altitude_control` returns
`thrust = (u1 - g) / R[2][2]` with
`u1 = Kp_z·(alt_cmd - alt) + Kd_z·(vvel_cmd - vvel) + ff` and `g = 9.81`,
where `R[2][2] = cos(roll)·cos(pitch)` is the `[2][2]` entry of the §4.1
rotation matrix; in particular at level attitude, zero error and zero
feed-forward it returns exactly `-9.81`. -/
theorem altitude_control_spec :
    (∀ (c : NonlinearController ℝ)
        (altitude_cmd vertical_velocity_cmd altitude vertical_velocity
          acceleration_ff phi theta psi : ℝ),
      altitude_control c Real.sin Real.cos altitude_cmd vertical_velocity_cmd altitude
          vertical_velocity (phi, theta, psi) acceleration_ff
        = (c.z_k_p * (altitude_cmd - altitude)
            + c.z_k_d * (vertical_velocity_cmd - vertical_velocity)
            + acceleration_ff - 9.81) / (Real.cos phi * Real.cos theta))
    ∧ (∀ (c : NonlinearController ℝ) (a v psi : ℝ),
      altitude_control c Real.sin Real.cos a v a v (0, 0, psi) 0 = -9.81) := by
  refine ⟨fun c ac vc a v ff phi theta psi => altitude_control_eq c ac vc a v ff phi theta psi, ?_⟩
  intro c a v psi
  rw [altitude_control_eq]
  norm_num

/-- Claim C5: the rotation matrices constructed inside `altitude_control`
and inside `roll_pitch_controller` agree, both equal
`Rz(psi) * Ry(theta) * Rx(phi)`, their `[2][2]` entry is
`cos(roll) * cos(pitch)`, and at attitude `(0,0,0)` the matrix is the
identity. -/
theorem rotation_matrix_spec :
    (∀ (attitude : V3 ℝ),
      rotation_matrix_alt Real.sin Real.cos attitude
        = rotation_mat_rp Real.sin Real.cos attitude)
    ∧ (∀ (phi theta psi : ℝ),
      rotation_matrix_alt Real.sin Real.cos (phi, theta, psi)
        = Rz_psi Real.sin Real.cos psi * Ry_theta Real.sin Real.cos theta
            * Rx_phi Real.sin Real.cos phi)
    ∧ (∀ (phi theta psi : ℝ),
      rotation_matrix_alt Real.sin Real.cos (phi, theta, psi) 2 2
        = Real.cos phi * Real.cos theta)
    ∧ rotation_matrix_alt Real.sin Real.cos (0, 0, 0) = (1 : Matrix (Fin 3) (Fin 3) ℝ) := by
  refine ⟨fun _ => rfl, fun _ _ _ => rfl,
    fun phi theta psi => rotation_matrix_alt_apply_22 Real.sin Real.cos (phi, theta, psi), ?_⟩
  ext i j
  fin_cases i <;> fin_cases j <;>
    simp [rotation_matrix_alt, Rz_psi, Ry_theta, Rx_phi, Matrix.mul_apply,
      Fin.sum_univ_three, Matrix.one_apply, Matrix.vecHead, Matrix.vecTail]

/-- Claim C6: `roll_pitch_controller` computes
`b_x_c = Kp_roll·(accel[0]/thrust - R[0][2])`,
`b_y_c = Kp_pitch·(accel[1]/thrust - R[1][2])` and returns
`(p_c, q_c) = (1/R[2][2]) · [[R[1][0], -R[0][0]], [R[1][1], -R[0][1]]] · (b_x_c, b_y_c)`;
in particular with zero desired acceleration and level attitude it
returns `(0, 0)` (for every thrust command, hence for every positive
one). -/
theorem roll_pitch_controller_spec :
    (∀ (c : NonlinearController ℝ) (acceleration_cmd : ℝ × ℝ) (attitude : V3 ℝ)
        (thrust_cmd : ℝ),
      roll_pitch_controller c Real.sin Real.cos acceleration_cmd attitude thrust_cmd
        = ((1 / rotation_mat_rp Real.sin Real.cos attitude 2 2)
             * (rotation_mat_rp Real.sin Real.cos attitude 1 0
                  * (c.k_p_roll * (acceleration_cmd.1 / thrust_cmd
                      - rotation_mat_rp Real.sin Real.cos attitude 0 2))
                + -(rotation_mat_rp Real.sin Real.cos attitude 0 0)
                  * (c.k_p_pitch * (acceleration_cmd.2 / thrust_cmd
                      - rotation_mat_rp Real.sin Real.cos attitude 1 2))),
           (1 / rotation_mat_rp Real.sin Real.cos attitude 2 2)
             * (rotation_mat_rp Real.sin Real.cos attitude 1 1
                  * (c.k_p_roll * (acceleration_cmd.1 / thrust_cmd
                      - rotation_mat_rp Real.sin Real.cos attitude 0 2))
                + -(rotation_mat_rp Real.sin Real.cos attitude 0 1)
                  * (c.k_p_pitch * (acceleration_cmd.2 / thrust_cmd
                      - rotation_mat_rp Real.sin Real.cos attitude 1 2)))))
    ∧ (∀ (c : NonlinearController ℝ) (psi thrust_cmd : ℝ),
      roll_pitch_controller c Real.sin Real.cos (0, 0) (0, 0, psi) thrust_cmd = (0, 0)) := by
  constructor
  · intro c acc att t
    simp only [roll_pitch_controller, Matrix.mulVec, Matrix.dotProduct, Fin.sum_univ_two,
      Matrix.smul_apply, smul_eq_mul, Matrix.of_apply, Matrix.cons_val_zero,
      Matrix.cons_val_one, Matrix.head_cons, Matrix.cons_val', Matrix.empty_val',
      Matrix.cons_val_fin_one, Matrix.head_fin_const, Prod.mk.injEq]
    constructor <;> ring
  · intro c psi t
    simp [roll_pitch_controller, rotation_mat_rp, Rz_psi, Ry_theta, Rx_phi,
      Matrix.mul_apply, Fin.sum_univ_three, Matrix.mulVec, Matrix.dotProduct,
      Fin.sum_univ_two, Matrix.smul_apply, smul_eq_mul]

/-- Claim C7: `lateral_position_control` is the per-axis PD law
`accel_cmd[a] = Kp[a]·(pos_cmd[a] - pos[a]) + Kd[a]·(vel_cmd[a] - vel[a]) + ff[a]`;
with zero error and zero feed-forward it returns the zero vector for all
gains, and each axis's output scales linearly in that axis's gains
independently (scaling the north gains by `s` scales the north output by
`s` and leaves the east output unchanged, and symmetrically). -/
theorem lateral_position_control_spec :
    (∀ (c : NonlinearController ℝ) (pc vc p v ff : ℝ × ℝ),
      lateral_position_control c pc vc p v ff
        = (c.x_k_p * (pc.1 - p.1) + c.x_k_d * (vc.1 - v.1) + ff.1,
           c.y_k_p * (pc.2 - p.2) + c.y_k_d * (vc.2 - v.2) + ff.2))
    ∧ (∀ (c : NonlinearController ℝ) (p v : ℝ × ℝ),
      lateral_position_control c p v p v (0, 0) = (0, 0))
    ∧ (∀ (c : NonlinearController ℝ) (s : ℝ) (pc vc p v : ℝ × ℝ),
      (lateral_position_control
          ⟨c.z_k_p, c.z_k_d, s * c.x_k_p, s * c.x_k_d, c.y_k_p, c.y_k_d, c.k_p_roll,
           c.k_p_pitch, c.k_p_yaw, c.k_p_p, c.k_p_q, c.k_p_r⟩ pc vc p v (0, 0)).1
          = s * (lateral_position_control c pc vc p v (0, 0)).1
        ∧ (lateral_position_control
          ⟨c.z_k_p, c.z_k_d, s * c.x_k_p, s * c.x_k_d, c.y_k_p, c.y_k_d, c.k_p_roll,
           c.k_p_pitch, c.k_p_yaw, c.k_p_p, c.k_p_q, c.k_p_r⟩ pc vc p v (0, 0)).2
          = (lateral_position_control c pc vc p v (0, 0)).2)
    ∧ (∀ (c : NonlinearController ℝ) (s : ℝ) (pc vc p v : ℝ × ℝ),
      (lateral_position_control
          ⟨c.z_k_p, c.z_k_d, c.x_k_p, c.x_k_d, s * c.y_k_p, s * c.y_k_d, c.k_p_roll,
           c.k_p_pitch, c.k_p_yaw, c.k_p_p, c.k_p_q, c.k_p_r⟩ pc vc p v (0, 0)).2
          = s * (lateral_position_control c pc vc p v (0, 0)).2
        ∧ (lateral_position_control
          ⟨c.z_k_p, c.z_k_d, c.x_k_p, c.x_k_d, s * c.y_k_p, s * c.y_k_d, c.k_p_roll,
           c.k_p_pitch, c.k_p_yaw, c.k_p_p, c.k_p_q, c.k_p_r⟩ pc vc p v (0, 0)).1
          = (lateral_position_control c pc vc p v (0, 0)).1) := by
  refine ⟨fun c pc vc p v ff => rfl, fun c p v => by simp [lateral_position_control], ?_, ?_⟩
  · intro c s pc vc p v
    constructor <;> simp [lateral_position_control] <;> ring
  · intro c s pc vc p v
    constructor <;> simp [lateral_position_control] <;> ring

/-- Claim C8: `body_rate_control` is the axis-independent proportional
law `moment[axis] = Kp[axis]·(rate_cmd[axis] - rate[axis])` (each output
component depends only on that axis's gain, commanded rate and measured
rate); with zero rate error it returns the zero moment vector for all
gains. -/
theorem body_rate_control_spec :
    (∀ (c : NonlinearController ℝ) (body_rate_cmd body_rate : V3 ℝ),
      body_rate_control c body_rate_cmd body_rate
        = (c.k_p_p * (body_rate_cmd.1 - body_rate.1),
           c.k_p_q * (body_rate_cmd.2.1 - body_rate.2.1),
           c.k_p_r * (body_rate_cmd.2.2 - body_rate.2.2)))
    ∧ (∀ (c : NonlinearController ℝ) (body_rate : V3 ℝ),
      body_rate_control c body_rate body_rate = ((0:ℝ), (0:ℝ), (0:ℝ))) := by
  exact ⟨fun c cmd br => rfl, fun c br => by simp [body_rate_control]⟩

/-- Claim C9: `yaw_control` returns `0.0` for every commanded and actual
yaw — the stage is a stub that never applies the intended
proportional-with-wraparound law. -/
theorem yaw_control_spec : ∀ (c : NonlinearController ℝ) (yaw_cmd yaw : ℝ),
    yaw_control c yaw_cmd yaw = 0 :=
  fun _ _ _ => rfl
